import Mathlib

/-!
Verification model of the `mcp-react-docs` MCP server.

The repository ships two variants of the same five-tool server:
* a local-filesystem variant (`LocalMode` below): registry `PACKAGES`,
  `findPackage`, `readFileSafe`, `collectSourceFiles`, `searchInPackage`,
  and the tool handlers `get_package_docs`, `get_package_types`,
  `get_package_source`, `search_source`;
* a GitHub-backed variant (`RemoteMode` below) where file content comes from
  `fetchRawFile`/`fetchGitHubAPI`; network calls are modelled as explicit
  function parameters returning `Except`/structured data.

Strings are modelled with Lean `String`; all string computations are done
through structural helpers on `List Char` so that every definition evaluates
by kernel reduction.  JavaScript regular expressions (`new RegExp(pattern,
"gi")`) are modelled by an executable parser and matcher for the regex
dialect the server relies on; the `g`-flag `lastIndex` state of `regex.test`
is modelled explicitly.
-/

namespace McpDocs

/-- Uniform tool-response envelope: the single text content item together
with the `isError` flag (absent in the source means `false`). -/
structure Envelope where
  text : String
  isError : Bool
deriving DecidableEq, Repr

/-- Characters of a string (structural view used by all helpers). -/
def chars (s : String) : List Char := s.toList

/-- Model of JavaScript `String.prototype.trim` on a character list. -/
def trimChars (cs : List Char) : List Char :=
  ((cs.dropWhile Char.isWhitespace).reverse.dropWhile Char.isWhitespace).reverse

/-- Model of JavaScript `String.prototype.trim`. -/
def jsTrim (s : String) : String := String.mk (trimChars s.toList)

/-- Split a character list on a separator character; mirrors
JavaScript `String.prototype.split` with a one-character separator
(`"".split` yields one empty piece, like JS). -/
def splitOnChar (sep : Char) : List Char → List (List Char)
  | [] => [[]]
  | c :: cs =>
    let r := splitOnChar sep cs
    if c = sep then [] :: r
    else
      match r with
      | [] => [[c]]
      | h :: t => (c :: h) :: t

/-- Model of `content.split("\n")` from `searchInPackage`. -/
def splitLines (s : String) : List String := (splitOnChar '\n' s.toList).map String.mk

/-- Model of JavaScript `Array.prototype.join(sep)`. -/
def sepJoin (sep : String) : List String → String
  | [] => ""
  | [x] => x
  | x :: xs => x ++ sep ++ sepJoin sep xs

/-- Boolean string-prefix test; same relation as JavaScript
`String.prototype.startsWith`, computed structurally. -/
def sLeads (p s : String) : Bool := p.toList.isPrefixOf s.toList

/-- Components of an absolute or relative POSIX path (empty pieces from
leading/duplicate slashes dropped, as `path.join` normalization does). -/
def splitPath (p : String) : List String :=
  ((splitOnChar '/' p.toList).map String.mk).filter (fun c => c ≠ "")

/-- Normalization step of Node `path.join` for an absolute result:
`"."` components vanish and `".."` pops the previous component
(dropping past the root is absorbed, as POSIX `join` does). -/
def normComps (l : List String) : List String :=
  l.foldl (fun acc c => if c = "." then acc else if c = ".." then acc.dropLast else acc ++ [c]) []

/-- Model of Node `path.join(dir, rel)` for an absolute `dir`: concatenate
the components and normalize, rendering with `/` separators. -/
def joinPath (dir rel : String) : String :=
  "/" ++ sepJoin "/" (normComps (splitPath dir ++ splitPath rel))

/-- A resolved path lies inside a root directory iff the root components
are a componentwise prefix of the resolved path components.  This is the
semantic "does not escape the root" relation of the specified path-traversal
guard (as opposed to the raw string-prefix test the code performs). -/
def insideRoot (root full : String) : Bool :=
  (normComps (splitPath root)).isPrefixOf (splitPath full)

/-- Model of Node `path.extname` (suffix from the last `.` of the name,
empty when there is no dot or the only dot is the leading character). -/
def extname (s : String) : String :=
  match s.toList.reverse.findIdx? (fun c => c = '.') with
  | none => ""
  | some i =>
    let j := s.toList.length - 1 - i
    if j = 0 then "" else String.mk (s.toList.drop j)

/-- Directory tree model of the local filesystem: a file carries its
content, with `none` meaning the file exists but `readFileSync` throws
(unreadable); directory entries are in `readdirSync` order.  Real
filesystem names never contain `/`. -/
inductive FSNode where
  | file (name : String) (content : Option String)
  | dir (name : String) (entries : List FSNode)
deriving Repr

/-- Name of a directory entry. -/
def FSNode.name : FSNode → String
  | .file n _ => n
  | .dir n _ => n

/-- The `IGNORE` set of `collectSourceFiles`. -/
def IGNORE : List String := ["node_modules", "dist", ".git", ".github", ".claude"]

/-- The source-extension allowlist of `collectSourceFiles`. -/
def EXTENSIONS : List String := [".ts", ".tsx", ".js", ".jsx"]

/-- Recursion of `collectSourceFiles` over directory entries, producing the
relative path of each kept file as its component list (the source pushes
`relative(base, fullPath)`, which for a file reached through directories
`d₁ … dₖ` is exactly `d₁/…/dₖ/name`).  The `IGNORE` test is applied to every
entry name before the directory/file distinction, as in the source. -/
def collectComps (pre : List String) : List FSNode → List (List String)
  | [] => []
  | FSNode.file nm _ :: rest =>
    (if nm ∈ IGNORE then []
     else if extname nm ∈ EXTENSIONS then [pre ++ [nm]] else []) ++ collectComps pre rest
  | FSNode.dir nm sub :: rest =>
    (if nm ∈ IGNORE then [] else collectComps (pre ++ [nm]) sub) ++ collectComps pre rest

/-- Model of `collectSourceFiles(dir)`: `none` stands for `!existsSync(dir)`
(the function returns `[]`); otherwise the rendered relative paths of all
collected files, in discovery order. -/
def collectSourceFiles (root : Option (List FSNode)) : List String :=
  match root with
  | none => []
  | some es => (collectComps [] es).map (sepJoin "/")

/-- First directory entry with a given name (filesystem lookup). -/
def findEntry (nm : String) : List FSNode → Option FSNode
  | [] => none
  | e :: rest => if e.name = nm then some e else findEntry nm rest

/-- Resolve a relative path (as components) in a directory tree and read the
file there: `some text` iff `readFileSync` succeeds, `none` for every
failure mode (missing entry, directory, unreadable file). -/
def resolveRead : List FSNode → List String → Option String
  | _, [] => none
  | es, [nm] =>
    match findEntry nm es with
    | some (.file _ c) => c
    | _ => none
  | es, nm :: rest =>
    match findEntry nm es with
    | some (.dir _ sub) => resolveRead sub rest
    | _ => none

/-!
Model of the JavaScript regular expressions used by `searchInPackage`:
`new RegExp(pattern, "gi")`.  The abstract syntax `RE` and the executable
parser below cover the dialect the search of the server relies on (literals,
escapes, `.`, classes, alternation, groups and lookahead, the quantifiers
and both anchors, word boundaries); named groups and lookbehind are outside
the modelled dialect.  The `i` flag is baked into the matcher through
`charCI`/`clsTest`; the `lastIndex` statefulness of the `g` flag of
`regex.test` is modelled by `gTest`.
-/

/-- One item of a character class: a (closed) character range or one of the
perl classes `\d`/`\w`/`\s`, possibly negated. -/
inductive CItem where
  | rng (lo hi : Char)
  | pd (neg : Bool)
  | pw (neg : Bool)
  | ps (neg : Bool)
deriving Repr, DecidableEq

/-- Regular-expression abstract syntax. -/
inductive RE where
  | emp
  | eps
  | lit (c : Char)
  | anyc
  | cls (neg : Bool) (items : List CItem)
  | alt (a b : RE)
  | cat (a b : RE)
  | star (a : RE)
  | bol
  | eol
  | wordB (neg : Bool)
  | look (neg : Bool) (r : RE)

def isDigitCh (c : Char) : Bool := decide ('0' ≤ c ∧ c ≤ '9')

def isWordCh (c : Char) : Bool :=
  decide ('a' ≤ c ∧ c ≤ 'z') || decide ('A' ≤ c ∧ c ≤ 'Z') || isDigitCh c || decide (c = '_')

def isSpaceCh (c : Char) : Bool :=
  decide (c = ' ') || decide (c = '\t') || decide (c = '\n') || decide (c = '\r') ||
    decide (c = Char.ofNat 12) || decide (c = Char.ofNat 11)

def citemTest : CItem → Char → Bool
  | .rng lo hi, x => decide (lo ≤ x ∧ x ≤ hi)
  | .pd neg, x => Bool.xor (isDigitCh x) neg
  | .pw neg, x => Bool.xor (isWordCh x) neg
  | .ps neg, x => Bool.xor (isSpaceCh x) neg

/-- Case-insensitive canonicalization used for the `i` flag. -/
def charCI (c : Char) : Char := c.toLower

/-- Class membership under the `i` flag (a class hits if the character or a
case variant of it hits), then the `[^…]` negation. -/
def clsTest (neg : Bool) (items : List CItem) (x : Char) : Bool :=
  let hit := items.any fun it => citemTest it x || citemTest it x.toLower || citemTest it x.toUpper
  Bool.xor hit neg

def sizeRE : RE → Nat
  | .alt a b => sizeRE a + sizeRE b + 1
  | .cat a b => sizeRE a + sizeRE b + 1
  | .star a => sizeRE a + 1
  | .look _ a => sizeRE a + 1
  | _ => 1

/-- Fuel-indexed matcher: `runRE f full r s` is the list of possible
remainders after `r` has matched a prefix of the suffix `s` of the line
`full` (the line is carried for the `^` anchor and `\b`).  The star case
requires strict consumption per iteration, which is sound for matching and
makes the recursion bounded; `fuelFor` supplies enough fuel downstream. -/
def runRE : Nat → List Char → RE → List Char → List (List Char)
  | 0, _, _, _ => []
  | f + 1, full, r, s =>
    match r with
    | .emp => []
    | .eps => [s]
    | .lit c =>
      match s with
      | [] => []
      | x :: xs => if charCI x = charCI c then [xs] else []
    | .anyc =>
      match s with
      | [] => []
      | x :: xs => if x = '\n' ∨ x = '\r' then [] else [xs]
    | .cls neg items =>
      match s with
      | [] => []
      | x :: xs => if clsTest neg items x then [xs] else []
    | .alt a b => runRE f full a s ++ runRE f full b s
    | .cat a b => (runRE f full a s).flatMap (fun t => runRE f full b t)
    | .star a =>
      s :: ((runRE f full a s).filter (fun t => t.length < s.length)).flatMap
        (fun t => runRE f full (.star a) t)
    | .bol => if s.length = full.length then [s] else []
    | .eol => if s.isEmpty then [s] else []
    | .wordB neg =>
      let pos := full.length - s.length
      let prevW := if pos = 0 then false else isWordCh (full.getD (pos - 1) ' ')
      let nextW := match s with | [] => false | x :: _ => isWordCh x
      if Bool.xor (Bool.xor prevW nextW) neg then [s] else []
    | .look neg a => if Bool.xor (!(runRE f full a s).isEmpty) neg then [s] else []

def fuelFor (r : RE) (s : List Char) : Nat := (sizeRE r + 1) * (s.length + 1) + 1

/-- End position (index into the line) of some match of `r` starting where
suffix `s` begins, if any. -/
def matchEndAt (full : List Char) (r : RE) (s : List Char) : Option Nat :=
  match runRE (fuelFor r s) full r s with
  | [] => none
  | t :: _ => some (full.length - t.length)

/-- First match attempt position at or after the start of suffix `s`,
scanning left to right as the JS engine does. -/
def firstEnd (full : List Char) (r : RE) : List Char → Option Nat
  | [] => matchEndAt full r []
  | s@(_ :: t) =>
    match matchEndAt full r s with
    | some e => some e
    | none => firstEnd full r t

/-- Model of `regex.test(line)` for a `g`-flag regex object: attempt from
`lastIndex` onward; on success return `(true, matchEnd)` (JS sets
`lastIndex` to the end of the match), on failure `(false, 0)` (a failed
`g`-flag `test`, including `lastIndex` past the end, resets `lastIndex`). -/
def gTest (r : RE) (line : String) (lastIdx : Nat) : Bool × Nat :=
  if lastIdx > line.toList.length then (false, 0)
  else
    match firstEnd line.toList r (line.toList.drop lastIdx) with
    | some e => (true, e)
    | none => (false, 0)

/-- Escape atom outside a class (`\d`, `\b`, control escapes, identity). -/
def escAtom (e : Char) : RE :=
  if e = 'd' then .cls false [.pd false]
  else if e = 'D' then .cls false [.pd true]
  else if e = 'w' then .cls false [.pw false]
  else if e = 'W' then .cls false [.pw true]
  else if e = 's' then .cls false [.ps false]
  else if e = 'S' then .cls false [.ps true]
  else if e = 'b' then .wordB false
  else if e = 'B' then .wordB true
  else if e = 'n' then .lit '\n'
  else if e = 't' then .lit '\t'
  else if e = 'r' then .lit '\r'
  else if e = 'f' then .lit (Char.ofNat 12)
  else if e = 'v' then .lit (Char.ofNat 11)
  else if e = '0' then .lit (Char.ofNat 0)
  else .lit e

/-- One class atom: a perl class (`Sum.inl`) or a single character
(`Sum.inr`), consuming its characters. -/
def parseCC : List Char → Option (Sum CItem Char × List Char)
  | [] => none
  | '\\' :: [] => none
  | '\\' :: e :: rest =>
    if e = 'd' then some (.inl (.pd false), rest)
    else if e = 'D' then some (.inl (.pd true), rest)
    else if e = 'w' then some (.inl (.pw false), rest)
    else if e = 'W' then some (.inl (.pw true), rest)
    else if e = 's' then some (.inl (.ps false), rest)
    else if e = 'S' then some (.inl (.ps true), rest)
    else if e = 'b' then some (.inr (Char.ofNat 8), rest)
    else if e = 'n' then some (.inr '\n', rest)
    else if e = 't' then some (.inr '\t', rest)
    else if e = 'r' then some (.inr '\r', rest)
    else if e = 'f' then some (.inr (Char.ofNat 12), rest)
    else if e = 'v' then some (.inr (Char.ofNat 11), rest)
    else if e = '0' then some (.inr (Char.ofNat 0), rest)
    else some (.inr e, rest)
  | c :: rest => if c = ']' then none else some (.inr c, rest)

/-- Items of a character class up to the closing `]`; `none` on an unclosed
class or a reversed range (a regex syntax error). -/
def parseClsItems : Nat → List Char → Option (List CItem × List Char)
  | 0, _ => none
  | _ + 1, [] => none
  | _ + 1, ']' :: rest => some ([], rest)
  | f + 1, cs =>
    match parseCC cs with
    | none => none
    | some (.inl item, rest) =>
      match parseClsItems f rest with
      | some (items, r2) => some (item :: items, r2)
      | none => none
    | some (.inr c1, rest) =>
      match rest with
      | '-' :: r1 =>
        match r1 with
        | [] => none
        | ']' :: r2 => some ([.rng c1 c1, .rng '-' '-'], r2)
        | _ =>
          match parseCC r1 with
          | some (.inr c2, r2) =>
            if c1 ≤ c2 then
              match parseClsItems f r2 with
              | some (items, r3) => some (.rng c1 c2 :: items, r3)
              | none => none
            else none
          | _ => none
      | _ =>
        match parseClsItems f rest with
        | some (items, r2) => some (.rng c1 c1 :: items, r2)
        | none => none

def takeDigits : List Char → List Char × List Char
  | [] => ([], [])
  | c :: cs =>
    if isDigitCh c then
      let (ds, r) := takeDigits cs
      (c :: ds, r)
    else ([], c :: cs)

def digitsVal (ds : List Char) : Nat := ds.foldl (fun n c => n * 10 + (c.toNat - '0'.toNat)) 0

/-- Inside of a `{…}` quantifier: `{m}`, `{m,}` or `{m,n}`; `none` when the
braces do not form a quantifier (then `{` is a literal, as in JS). -/
def parseBraceQ (cs : List Char) : Option (Nat × Option (Option Nat) × List Char) :=
  let (ds, r1) := takeDigits cs
  if ds.isEmpty then none
  else
    match r1 with
    | '}' :: r2 => some (digitsVal ds, none, r2)
    | ',' :: r2 =>
      let (ds2, r3) := takeDigits r2
      match r3 with
      | '}' :: r4 =>
        if ds2.isEmpty then some (digitsVal ds, some none, r4)
        else some (digitsVal ds, some (some (digitsVal ds2)), r4)
      | _ => none
    | _ => none

def repCat (r : RE) : Nat → RE
  | 0 => .eps
  | n + 1 => .cat r (repCat r n)

def optRep (r : RE) : Nat → RE
  | 0 => .eps
  | n + 1 => .cat (.alt r .eps) (optRep r n)

/-- Skip a lazy-quantifier marker `?` (laziness does not change `test`). -/
def skipLazy : List Char → List Char
  | '?' :: r => r
  | cs => cs

/-- Apply an optional quantifier following an atom.  `none` only on a
syntactically valid `{m,n}` with `m > n` (a regex syntax error in JS). -/
def parseQuantAux (r : RE) : List Char → Option (RE × List Char)
  | [] => some (r, [])
  | c :: rest =>
    if c = '*' then some (.star r, skipLazy rest)
    else if c = '+' then some (.cat r (.star r), skipLazy rest)
    else if c = '?' then some (.alt r .eps, skipLazy rest)
    else if c = '{' then
      match parseBraceQ rest with
      | some (m, none, r2) => some (repCat r m, skipLazy r2)
      | some (m, some none, r2) => some (.cat (repCat r m) (.star r), skipLazy r2)
      | some (m, some (some n), r2) =>
        if m ≤ n then some (.cat (repCat r m) (optRep r (n - m)), skipLazy r2) else none
      | none => some (r, '{' :: rest)
    else some (r, c :: rest)

/-- Group opener after `(`: plain or `(?:`, or a lookahead `(?=`/`(?!`;
any other `(?…` (named groups, lookbehind) is outside the modelled
dialect. -/
def groupKind : List Char → Option ((RE → RE) × List Char)
  | '?' :: ':' :: r => some (fun r0 => r0, r)
  | '?' :: '=' :: r => some (RE.look false, r)
  | '?' :: '!' :: r => some (RE.look true, r)
  | '?' :: _ => none
  | r => some (fun r0 => r0, r)

mutual

/-- Alternation level of the pattern grammar (stops before a `)`). -/
def parseAlt : Nat → List Char → Option (RE × List Char)
  | 0, _ => none
  | f + 1, cs => do
    let (rs, rest) ← parseSeq f cs
    let r := rs.foldr RE.cat RE.eps
    match rest with
    | '|' :: rest2 => do
      let (r2, rest3) ← parseAlt f rest2
      pure (RE.alt r r2, rest3)
    | _ => some (r, rest)

/-- Sequence of quantified atoms, up to `|`, `)` or the end. -/
def parseSeq : Nat → List Char → Option (List RE × List Char)
  | 0, _ => none
  | f + 1, cs =>
    match cs with
    | [] => some ([], [])
    | c :: _ =>
      if c = '|' ∨ c = ')' then some ([], cs)
      else do
        let (r, rest) ← parseAtomQ f cs
        let (rs, rest2) ← parseSeq f rest
        pure (r :: rs, rest2)

/-- One atom with its optional quantifier. -/
def parseAtomQ : Nat → List Char → Option (RE × List Char)
  | 0, _ => none
  | f + 1, cs => do
    let (r, rest) ← parseAtom f cs
    parseQuantAux r rest

/-- One atom.  `none` marks the regex syntax errors of the dialect: a
dangling quantifier, an unmatched `(` or `)`, an unclosed class, a trailing
backslash. -/
def parseAtom : Nat → List Char → Option (RE × List Char)
  | 0, _ => none
  | f + 1, cs =>
    match cs with
    | [] => none
    | c :: rest =>
      if c = '\\' then
        match rest with
        | [] => none
        | e :: rest2 => some (escAtom e, rest2)
      else if c = '(' then
        match groupKind rest with
        | none => none
        | some (wrap, inner) =>
          match parseAlt f inner with
          | some (r, ')' :: rest3) => some (wrap r, rest3)
          | _ => none
      else if c = ')' then none
      else if c = '[' then
        let (neg, body) : Bool × List Char :=
          match rest with
          | '^' :: r2 => (true, r2)
          | _ => (false, rest)
        match parseClsItems (body.length + 1) body with
        | some (items, r2) => some (.cls neg items, r2)
        | none => none
      else if c = '.' then some (.anyc, rest)
      else if c = '^' then some (.bol, rest)
      else if c = '$' then some (.eol, rest)
      else if c = '*' ∨ c = '+' ∨ c = '?' then none
      else if c = '{' then
        match parseBraceQ rest with
        | some _ => none
        | none => some (.lit c, rest)
      else some (.lit c, rest)

end

/-- Model of `new RegExp(p, "gi")` construction: `some` iff the pattern is
a valid regex of the dialect. -/
def parseRegex (p : String) : Option RE :=
  match parseAlt (4 * p.toList.length + 8) p.toList with
  | some (r, []) => some r
  | _ => none

/-- The metacharacter set of the literal-fallback escape in
`searchInPackage`. -/
def META : List Char := ['.', '*', '+', '?', '^', '$', '{', '}', '(', ')', '|', '[', ']', '\\']

def escapeChars (cs : List Char) : List Char :=
  cs.flatMap fun c => if c ∈ META then ['\\', c] else [c]

/-- Model of the fallback escape `pattern.replace(…, "\\$&")`: every
metacharacter gets a backslash. -/
def escapeRegexMeta (p : String) : String := String.mk (escapeChars p.toList)

def seqFold (rs : List RE) : RE := rs.foldr RE.cat RE.eps

/-- The regex denoting a literal character chain. -/
def litChain (cs : List Char) : RE := seqFold (cs.map RE.lit)

/-- The compiled regex of `searchInPackage`: `try { new RegExp(pattern,
"gi") } catch { new RegExp(escaped, "gi") }`.  The final `.emp` branch is
dead: the escaped pattern always parses (`parseRegex_escape`). -/
def compiledRE (pattern : String) : RE :=
  match parseRegex pattern with
  | some r => r
  | none =>
    match parseRegex (escapeRegexMeta pattern) with
    | some r => r
    | none => .emp

/-- Stateless per-line test (a fresh `lastIndex = 0` attempt). -/
def lineTest (pattern : String) (line : String) : Bool := (gTest (compiledRE pattern) line 0).1

/-- Case-insensitive "is a prefix of"; mirrors how `litChain` consumes. -/
def ciStarts : List Char → List Char → Bool
  | [], _ => true
  | _ :: _, [] => false
  | c :: cs, x :: xs => if charCI x = charCI c then ciStarts cs xs else false

/-- Case-insensitive substring containment. -/
def ciSub (pat : List Char) : List Char → Bool
  | [] => ciStarts pat []
  | s@(_ :: t) => if ciStarts pat s then true else ciSub pat t

/-- Case-sensitive "is a prefix of". -/
def exStarts : List Char → List Char → Bool
  | [], _ => true
  | _ :: _, [] => false
  | c :: cs, x :: xs => if x = c then exStarts cs xs else false

/-- Case-sensitive substring containment (plain "the line contains the
pattern as written"). -/
def exSub (pat : List Char) : List Char → Bool
  | [] => exStarts pat []
  | s@(_ :: t) => if exStarts pat s then true else exSub pat t

/-- Model of `id.replace(/^@gaddario98\//, "")`: strip the namespace from
the start (the regex is anchored, so at most the leading occurrence). -/
def stripNs (id : String) : String :=
  if sLeads "@gaddario98/" id then String.mk (id.toList.drop 12) else id

/-- Boolean string-suffix test (used for the remote extension regex
`\.(ts|tsx|js|jsx)$`, which holds exactly of paths with one of the four
dotted suffixes). -/
def sEnds (suf s : String) : Bool := suf.toList.reverse.isPrefixOf s.toList.reverse

/-- Substring containment as JavaScript `String.prototype.includes`. -/
def sHasSub (s sub : String) : Bool := exSub sub.toList s.toList

/-!
The local-filesystem variant of the server (the `react-base-core` layout).
`root` abstracts the runtime-resolved `PACKAGES_ROOT`; the filesystem is
passed as two views: `fs` (absolute path to readable content, `none` when
`readFileSync` throws / `existsSync` is false) for direct reads, and
`dirOf` (directory path to its entries, `none` when the directory does not
exist) for the recursive enumeration.
-/
namespace LocalMode

structure PackageInfo where
  id : String
  name : String
  description : String
  dir : String
  readmePath : String
  typesPath : Option String
  github : String
deriving Repr, DecidableEq

/-- The static registry of the local variant. -/
def PACKAGES (root : String) : List PackageInfo :=
  [ { id := "react-core", name := "@gaddario98/react-core",
      description := "Modular, type-safe React framework: state, forms, queries, pages, localization, auth, notifications",
      dir := root, readmePath := root ++ "/README.md", typesPath := none,
      github := "https://github.com/gaddario98/react-core" },
    { id := "react-form", name := "@gaddario98/react-form",
      description := "Dynamic, type-safe form builder on TanStack React Form with Jotai state",
      dir := root ++ "/form", readmePath := root ++ "/form/README.md",
      typesPath := some (root ++ "/form/types.ts"),
      github := "https://github.com/gaddario98/react-form" },
    { id := "react-queries", name := "@gaddario98/react-queries",
      description := "Unified data fetching layer on TanStack Query + Jotai: queries, mutations, WebSockets",
      dir := root ++ "/queries", readmePath := root ++ "/queries/README.md",
      typesPath := some (root ++ "/queries/types.ts"),
      github := "https://github.com/gaddario98/react-queries" },
    { id := "react-pages", name := "@gaddario98/react-pages",
      description := "Page orchestrator: forms + queries + SEO + lazy loading + cross-platform",
      dir := root ++ "/pages", readmePath := root ++ "/pages/README.md",
      typesPath := some (root ++ "/pages/types.ts"),
      github := "https://github.com/gaddario98/react-pages" } ]

/-- Tolerant registry lookup: short id, display name, or namespace-stripped
id. -/
def findPackage (root id : String) : Option PackageInfo :=
  (PACKAGES root).find? fun p => p.id == id || p.name == id || p.id == stripNs id

/-- Model of `readFileSafe`: a read failure becomes marker text, not an
error result. -/
def readFileSafe (fs : String → Option String) (path : String) : String :=
  match fs path with
  | some c => c
  | none => "Error: file not found at " ++ path

/-- The unknown-package message of `get_package_docs` / `get_package_types`
/ `get_package_source`. -/
def notFoundMsg (root packageId : String) : String :=
  "Package \"" ++ packageId ++ "\" not found. Available: " ++
    sepJoin ", " ((PACKAGES root).map (fun p => p.id))

/-- Tool 2, `get_package_docs`. -/
def get_package_docs (fs : String → Option String) (root packageId : String) : Envelope :=
  match findPackage root packageId with
  | none => ⟨notFoundMsg root packageId, true⟩
  | some pkg => ⟨readFileSafe fs pkg.readmePath, false⟩

/-- Model of Node `relative(base, p)` for the descendant paths the server
computes it on: strip the base plus separator. -/
def relDesc (base p : String) : String :=
  if sLeads (base ++ "/") p then String.mk (p.toList.drop (base.toList.length + 1)) else p

/-- Tool 3, `get_package_types`, including the aggregation rule for the
package with `typesPath: null`. -/
def get_package_types (fs : String → Option String) (root packageId : String) : Envelope :=
  match findPackage root packageId with
  | none => ⟨notFoundMsg root packageId, true⟩
  | some pkg =>
    match pkg.typesPath with
    | none =>
      let subTypes := sepJoin "\n\n"
        (((PACKAGES root).filter (fun p => p.typesPath.isSome)).map (fun p =>
          let tp := p.typesPath.getD ""
          "// ═══ " ++ p.name ++ " types ═══\n// File: " ++ relDesc root tp ++ "\n\n" ++
            readFileSafe fs tp))
      ⟨"// @gaddario98/react-core aggregated types\n// The core package re-exports from sub-modules:\n\n"
        ++ subTypes, false⟩
    | some tp =>
      ⟨"// " ++ pkg.name ++ " — " ++ relDesc root tp ++ "\n\n" ++ readFileSafe fs tp, false⟩

/-- Tool 4, `get_package_source`: listing when `filePath` is omitted; the
string-prefix traversal guard, existence check and provenance banner when
present. -/
def get_package_source (fs : String → Option String) (dirOf : String → Option (List FSNode))
    (root packageId : String) (filePath : Option String) : Envelope :=
  match findPackage root packageId with
  | none => ⟨notFoundMsg root packageId, true⟩
  | some pkg =>
    match filePath with
    | none =>
      let files := collectSourceFiles (dirOf pkg.dir)
      ⟨"# Source files in " ++ pkg.name ++ "\n\n" ++
        sepJoin "\n" (files.map (fun f => "- `" ++ f ++ "`")) ++
        "\n\n---\nUse `get_package_source` with a `filePath` to read a specific file.", false⟩
    | some fp =>
      let fullPath := joinPath pkg.dir fp
      if ¬ sLeads pkg.dir fullPath then
        ⟨"Error: path traversal not allowed", true⟩
      else if (fs fullPath).isNone then
        ⟨"File not found: " ++ fp ++ "\n\nAvailable files:\n" ++
          sepJoin "\n" ((collectSourceFiles (dirOf pkg.dir)).map (fun f => "- " ++ f)), true⟩
      else
        ⟨"// " ++ pkg.name ++ " — " ++ fp ++ "\n\n" ++ readFileSafe fs fullPath, false⟩

/-- One search hit of `searchInPackage`. -/
structure SMatch where
  file : String
  line : Nat
  content : String
deriving Repr, DecidableEq

/-- The per-line loop of `searchInPackage`, threading the `lastIndex` of the
`g`-flag regex (`li`): a matching line records `(i+1, trimmed)` and the source
then resets `lastIndex` to 0; a failing `test` resets it as JS does. -/
def scanLinesG (r : RE) (file : String) :
    List String → Nat → Nat → Nat → List SMatch → List SMatch × Nat
  | [], _, li, _, acc => (acc, li)
  | l :: rest, i, li, mr, acc =>
    if acc.length ≥ mr then (acc, li)
    else
      let t := gTest r l li
      if t.1 then scanLinesG r file rest (i + 1) 0 mr (acc ++ [⟨file, i + 1, jsTrim l⟩])
      else scanLinesG r file rest (i + 1) t.2 mr acc

/-- The per-file loop of `searchInPackage`; unreadable files are skipped. -/
def scanFilesG (r : RE) (es : List FSNode) :
    List (List String) → Nat → Nat → List SMatch → List SMatch × Nat
  | [], li, _, acc => (acc, li)
  | f :: rest, li, mr, acc =>
    if acc.length ≥ mr then (acc, li)
    else
      match resolveRead es f with
      | some content =>
        let p := scanLinesG r (sepJoin "/" f) (splitLines content) 0 li mr acc
        scanFilesG r es rest p.2 mr p.1
      | none => scanFilesG r es rest li mr acc

/-- `searchInPackage(pkg, pattern, maxResults)`: enumerate the source files of the
package, compile the pattern (with literal fallback), grep capped at
`maxResults`. -/
def searchInPackage (dir : Option (List FSNode)) (pattern : String) (maxResults : Nat) :
    List SMatch :=
  match dir with
  | none => []
  | some es => (scanFilesG (compiledRE pattern) es (collectComps [] es) 0 maxResults []).1

/-- One aggregated search hit of `search_source` (tagged with the owning
package id). -/
structure GMatch where
  pkg : String
  file : String
  line : Nat
  content : String
deriving Repr, DecidableEq

/-- The package loop of `search_source`: each package is searched with the
remaining budget, and the loop breaks as soon as the cap is reached. -/
def searchLoop (dirOf : String → Option (List FSNode)) (pattern : String) (maxResults : Nat) :
    List PackageInfo → List GMatch → List GMatch
  | [], acc => acc
  | p :: rest, acc =>
    let results := searchInPackage (dirOf p.dir) pattern (maxResults - acc.length)
    let acc2 := acc ++ results.map (fun r => ⟨p.id, r.file, r.line, r.content⟩)
    if acc2.length ≥ maxResults then acc2 else searchLoop dirOf pattern maxResults rest acc2

/-- Tool 5, `search_source` (local variant). -/
def search_source (dirOf : String → Option (List FSNode)) (root packageId pattern : String)
    (maxResults : Nat) : Envelope :=
  let packagesToSearch :=
    if packageId = "all" then PACKAGES root
    else
      match findPackage root packageId with
      | some p => [p]
      | none => []
  if packagesToSearch.isEmpty then
    ⟨"Package \"" ++ packageId ++ "\" not found. Available: " ++
      sepJoin ", " ((PACKAGES root).map (fun p => p.id)) ++ ", or use \x27all\x27", true⟩
  else
    let allResults := searchLoop dirOf pattern maxResults packagesToSearch []
    if allResults.isEmpty then
      ⟨"No results found for pattern \"" ++ pattern ++ "\" in " ++
        (if packageId = "all" then "any package" else packageId), false⟩
    else
      ⟨"# Search results for \"" ++ pattern ++ "\"\n\nFound " ++ toString allResults.length ++
        " match" ++ (if allResults.length > 1 then "es" else "") ++ ":\n\n" ++
        sepJoin "\n\n" (allResults.map (fun r =>
          "**" ++ r.pkg ++ "** — `" ++ r.file ++ ":" ++ toString r.line ++ "`\n```\n" ++
            r.content ++ "\n```")), false⟩

/-- Reference (stateless) per-line hits of one file: ascending line order,
at most one `SMatch` per line, 1-based numbering, trimmed text; each line is
tested with a fresh `lastIndex = 0`. -/
def lineHits (r : RE) (file : String) : List String → Nat → List SMatch
  | [], _ => []
  | l :: rest, i =>
    (if (gTest r l 0).1 then [⟨file, i + 1, jsTrim l⟩] else []) ++ lineHits r file rest (i + 1)

/-- Reference hits of one package over a given file list, in file order. -/
def pkgHits (r : RE) (es : List FSNode) (files : List (List String)) : List SMatch :=
  files.flatMap fun f =>
    match resolveRead es f with
    | some content => lineHits r (sepJoin "/" f) (splitLines content) 0
    | none => []

/-- Reference hits of one package directory (uncapped). -/
def pkgHitsAll (r : RE) : Option (List FSNode) → List SMatch
  | none => []
  | some es => pkgHits r es (collectComps [] es)

/-- The stateless reference search of one package: the canonical ordered
match list truncated at the cap. -/
def searchInPackagePure (dir : Option (List FSNode)) (pattern : String) (maxResults : Nat) :
    List SMatch :=
  (pkgHitsAll (compiledRE pattern) dir).take maxResults

/-- The canonical multi-package match list (package iteration order, then
file order, then ascending line number), uncapped. -/
def searchSpec (dirOf : String → Option (List FSNode)) (pattern : String)
    (pkgs : List PackageInfo) : List GMatch :=
  pkgs.flatMap fun p =>
    (pkgHitsAll (compiledRE pattern) (dirOf p.dir)).map fun r => ⟨p.id, r.file, r.line, r.content⟩

/-- Modelled from the aggregation contract of the spec (local variant): the
banner owed to one sub-package is its types content when readable, and the
explicit file-not-found marker text otherwise. -/
def typesBannerL (fs : String → Option String) (root nm tp : String) : String :=
  match fs tp with
  | some content =>
    "// ═══ " ++ nm ++ " types ═══\n// File: " ++ relDesc root tp ++ "\n\n" ++ content
  | none =>
    "// ═══ " ++ nm ++ " types ═══\n// File: " ++ relDesc root tp ++ "\n\n" ++
      ("Error: file not found at " ++ tp)

end LocalMode

/-!
The GitHub-backed variant (`src/index.ts`).  Network effects are passed in:
`fetch` models `fetchRawFile(repo, branch, path)` (`Except.error` carries
the thrown message), `api` models `fetchGitHubAPI` for the tree listing and
the code search (query-string encoding is abstracted into the parameter).
-/
namespace RemoteMode

structure PackageInfo where
  id : String
  name : String
  description : String
  repo : String
  branch : String
  basePath : String
  readmePath : String
  typesPath : Option String
  github : String
deriving Repr, DecidableEq

/-- The static registry of the remote variant. -/
def PACKAGES : List PackageInfo :=
  [ { id := "react-core", name := "@gaddario98/react-core",
      description := "Modular, type-safe React framework: state, forms, queries, pages, localization, auth, notifications",
      repo := "gaddario98/react-core", branch := "master", basePath := "",
      readmePath := "README.md", typesPath := none,
      github := "https://github.com/gaddario98/react-core" },
    { id := "react-form", name := "@gaddario98/react-form",
      description := "Dynamic, type-safe form builder on TanStack React Form with Jotai state",
      repo := "gaddario98/react-base-form", branch := "master", basePath := "",
      readmePath := "README.md", typesPath := some "types.ts",
      github := "https://github.com/gaddario98/react-base-form" },
    { id := "react-queries", name := "@gaddario98/react-queries",
      description := "Unified data fetching layer on TanStack Query + Jotai: queries, mutations, WebSockets",
      repo := "gaddario98/react-base-queries", branch := "master", basePath := "",
      readmePath := "README.md", typesPath := some "types.ts",
      github := "https://github.com/gaddario98/react-base-queries" },
    { id := "react-pages", name := "@gaddario98/react-pages",
      description := "Page orchestrator: forms + queries + SEO + lazy loading + cross-platform",
      repo := "gaddario98/react-base-pages", branch := "master", basePath := "",
      readmePath := "README.md", typesPath := some "types.ts",
      github := "https://github.com/gaddario98/react-base-pages" } ]

/-- Registry lookup of the remote variant (same tolerant matching). -/
def findPackage (id : String) : Option PackageInfo :=
  PACKAGES.find? fun p => p.id == id || p.name == id || p.id == stripNs id

/-- The unknown-package message of the remote `get_package_docs` /
`get_package_types` / `get_package_source`. -/
def notFoundMsg (packageId : String) : String :=
  "Package \"" ++ packageId ++ "\" not found. Available: " ++
    sepJoin ", " (PACKAGES.map (fun p => p.id))

/-- Tool 2, `get_package_docs` (remote). -/
def get_package_docs (fetch : String → String → String → Except String String)
    (packageId : String) : Envelope :=
  match findPackage packageId with
  | none => ⟨notFoundMsg packageId, true⟩
  | some pkg =>
    match fetch pkg.repo pkg.branch pkg.readmePath with
    | .ok text => ⟨text, false⟩
    | .error m => ⟨"Error fetching documentation: " ++ m, true⟩

/-- Tool 3, `get_package_types` (remote): the aggregation rule downgrades a
failed sub-fetch to a "Not Available" banner. -/
def get_package_types (fetch : String → String → String → Except String String)
    (packageId : String) : Envelope :=
  match findPackage packageId with
  | none => ⟨notFoundMsg packageId, true⟩
  | some pkg =>
    match pkg.typesPath with
    | none =>
      let subTypes := sepJoin "\n\n"
        ((PACKAGES.filter (fun p => p.typesPath.isSome)).map (fun p =>
          let tp := p.typesPath.getD ""
          match fetch p.repo p.branch tp with
          | .ok content => "// ═══ " ++ p.name ++ " types ═══\n// File: " ++ tp ++ "\n\n" ++ content
          | .error _ => "// ═══ " ++ p.name ++ " types: Not Available ═══"))
      ⟨"// @gaddario98/react-core aggregated types\n// The core package re-exports from sub-modules:\n\n"
        ++ subTypes, false⟩
    | some tp =>
      match fetch pkg.repo pkg.branch tp with
      | .ok text => ⟨"// " ++ pkg.name ++ " — " ++ tp ++ "\n\n" ++ text, false⟩
      | .error m => ⟨"Error fetching types: " ++ m, true⟩

/-- One entry of the GitHub tree API response. -/
structure TreeItem where
  typ : String
  path : String
deriving Repr, DecidableEq

/-- The `IGNORE_PATTERNS` list of the remote listing. -/
def IGNORE_PATTERNS : List String := ["node_modules", "dist", ".git", ".github", ".claude"]

/-- One ignore test of the remote listing:
`path.includes("/x/") || path.startsWith("x/")`. -/
def remoteIgnored (path : String) : Bool :=
  IGNORE_PATTERNS.any fun ig => sHasSub path ("/" ++ ig ++ "/") || sLeads (ig ++ "/") path

/-- The extension test `path.match(/\.(ts|tsx|js|jsx)$/)` of the remote
listing, as the equivalent suffix disjunction. -/
def remoteExtOk (path : String) : Bool :=
  EXTENSIONS.any fun e => sEnds e path

/-- Strip a leading occurrence (adequate model of `replace(base + "/", "")`
on paths that pass the `startsWith` filter). -/
def stripLead (pre s : String) : String :=
  if sLeads pre s then String.mk (s.toList.drop pre.toList.length) else s

/-- The remote file-listing filter over the tree items (blobs only,
base-path scoping, ignore patterns, extension allowlist, base stripping).
All registry entries have `basePath = ""`, so the scoping and stripping
branches are identity for this registry. -/
def remoteListFor (pkg : PackageInfo) (items : List TreeItem) : List String :=
  (((items.filter (fun it => it.typ == "blob")).map (fun it => it.path)).filter
    (fun path =>
      (if pkg.basePath = "" then true else sLeads (pkg.basePath ++ "/") path) &&
        (!remoteIgnored path && remoteExtOk path))).map
    (fun path => if pkg.basePath = "" then path else stripLead (pkg.basePath ++ "/") path)

/-- Tool 4, `get_package_source` (remote).  The rate-limit hint appended to
a listing error when no token is configured is folded into the abstract
error message. -/
def get_package_source (fetch : String → String → String → Except String String)
    (api : String → Except String (List TreeItem)) (packageId : String)
    (filePath : Option String) : Envelope :=
  match findPackage packageId with
  | none => ⟨notFoundMsg packageId, true⟩
  | some pkg =>
    match filePath with
    | none =>
      match api ("/repos/" ++ pkg.repo ++ "/git/trees/" ++ pkg.branch ++ "?recursive=1") with
      | .ok items =>
        let files := remoteListFor pkg items
        ⟨"# Source files in " ++ pkg.name ++ "\n\n" ++
          sepJoin "\n" (files.map (fun f => "- `" ++ f ++ "`")) ++
          "\n\n---\nUse `get_package_source` with a `filePath` to read a specific file.", false⟩
      | .error m => ⟨"Error listing files: " ++ m, true⟩
    | some fp =>
      let fullPath := if pkg.basePath = "" then fp else pkg.basePath ++ "/" ++ fp
      match fetch pkg.repo pkg.branch fullPath with
      | .ok text => ⟨"// " ++ pkg.name ++ " — " ++ fp ++ "\n\n" ++ text, false⟩
      | .error m => ⟨"Error fetching source file: " ++ m, true⟩

/-- One item of the GitHub code-search response. -/
structure SearchItem where
  repository_full_name : String
  path : String
  html_url : String
deriving Repr, DecidableEq

/-- The GitHub code-search response. -/
structure SearchData where
  total_count : Nat
  items : List SearchItem
deriving Repr, DecidableEq

/-- JavaScript `Array.from(new Set(l))`: first occurrences, in order. -/
def jsSetDedup : List String → List String
  | [] => []
  | x :: xs => x :: (jsSetDedup xs).filter (fun y => y ≠ x)

/-- The all-repositories scoping suffix of the remote search query. -/
def allReposQ : String :=
  sepJoin " " ((jsSetDedup (PACKAGES.map (fun p => p.repo))).map (fun r => "repo:" ++ r))

/-- Tool 5, `search_source` (remote): note there is no unknown-package
branch — a `packageId` that resolves to no package simply falls into the
all-repositories scoping. -/
def search_source (api : String → Except String SearchData) (packageId pattern : String) :
    Envelope :=
  let pkg := findPackage packageId
  let query :=
    pattern ++ " in:file" ++
      (match pkg with
       | some p => if packageId = "all" then " " ++ allReposQ else " repo:" ++ p.repo
       | none => " " ++ allReposQ)
  match api query with
  | .error m =>
    ⟨"GitHub API Search Error: " ++ m ++
      "\n\nNote: GitHub Code Search requires authentication. Make sure GITHUB_TOKEN is set in your environment.", true⟩
  | .ok data =>
    if data.items.isEmpty then
      ⟨"No results found on GitHub for pattern \"" ++ pattern ++ "\" in " ++
        (if packageId = "all" then "any package" else packageId), false⟩
    else
      let output := sepJoin "\n\n" (data.items.map fun item =>
        let pkgIdMatch :=
          if item.repository_full_name = "gaddario98/react-base-form" then "react-form"
          else if item.repository_full_name = "gaddario98/react-base-queries" then "react-queries"
          else if item.repository_full_name = "gaddario98/react-base-pages" then "react-pages"
          else "react-core"
        "**" ++ item.repository_full_name ++ " (" ++ pkgIdMatch ++ ")** — `" ++ item.path ++
          "`\n[View File on GitHub](" ++ item.html_url ++ ")")
      ⟨"# GitHub Search results for \"" ++ pattern ++ "\"\n\nFound " ++
        toString data.total_count ++ " files containing the pattern:\n\n" ++ output ++
        "\n\nUse `get_package_source` to read the specific contents of a file.", false⟩

/-- Modelled from the aggregation contract of the spec (remote variant): the
banner owed to one sub-package is its types content when the fetch
succeeds, and the explicit "Not Available" marker otherwise. -/
def typesBannerR (fetch : String → String → String → Except String String)
    (nm repo tp : String) : String :=
  match fetch repo "master" tp with
  | .ok content => "// ═══ " ++ nm ++ " types ═══\n// File: " ++ tp ++ "\n\n" ++ content
  | .error _ => "// ═══ " ++ nm ++ " types: Not Available ═══"

end RemoteMode

/-! ### Lemmas about the literal-fallback escape and the parser -/

theorem toList_mk (cs : List Char) : (String.mk cs).toList = cs := rfl

theorem escapeChars_cons (c : Char) (cs : List Char) :
    escapeChars (c :: cs) = (if c ∈ META then ['\\', c] else [c]) ++ escapeChars cs := by
  simp [escapeChars]

theorem length_le_escapeChars (cs : List Char) : cs.length ≤ (escapeChars cs).length := by
  induction cs with
  | nil => simp [escapeChars]
  | cons c cs ih =>
    rw [escapeChars_cons]
    by_cases h : c ∈ META <;> simp [h] <;> omega

theorem escAtom_meta : ∀ c ∈ META, escAtom c = RE.lit c := by
  intro c hc
  fin_cases hc <;> rfl

theorem not_mem_META_ne (c : Char) (h : c ∉ META) :
    c ≠ '\\' ∧ c ≠ '(' ∧ c ≠ ')' ∧ c ≠ '[' ∧ c ≠ '.' ∧ c ≠ '^' ∧ c ≠ '$' ∧
      c ≠ '*' ∧ c ≠ '+' ∧ c ≠ '?' ∧ c ≠ '{' ∧ c ≠ '}' ∧ c ≠ ']' ∧ c ≠ '|' := by
  refine ⟨?_, ?_, ?_, ?_, ?_, ?_, ?_, ?_, ?_, ?_, ?_, ?_, ?_, ?_⟩ <;>
    (intro e; subst e; exact h (by decide))

theorem parseQuantAux_escape (r : RE) (cs : List Char) :
    parseQuantAux r (escapeChars cs) = some (r, escapeChars cs) := by
  cases cs with
  | nil => rfl
  | cons c cs =>
    rw [escapeChars_cons]
    by_cases h : c ∈ META
    · rw [if_pos h]
      rfl
    · rw [if_neg h]
      obtain ⟨-, -, -, -, -, -, -, h8, h9, h10, h11, -, -, -⟩ := not_mem_META_ne c h
      simp only [List.cons_append, List.nil_append, parseQuantAux]
      rw [if_neg h8, if_neg h9, if_neg h10, if_neg h11]

theorem parseAtom_escape_cons (c : Char) (E : List Char) (g : Nat) (hg : 1 ≤ g) :
    parseAtom g (escapeChars [c] ++ E) = some (RE.lit c, E) := by
  obtain ⟨h, rfl⟩ : ∃ h, g = h + 1 := ⟨g - 1, by omega⟩
  by_cases hm : c ∈ META
  · rw [escapeChars_cons]
    rw [if_pos hm]
    show parseAtom (h + 1) ('\\' :: c :: ([] ++ E)) = some (RE.lit c, E)
    rw [List.nil_append]
    have : parseAtom (h + 1) ('\\' :: c :: E) = some (escAtom c, E) := rfl
    rw [this, escAtom_meta c hm]
  · rw [escapeChars_cons]
    rw [if_neg hm]
    show parseAtom (h + 1) (c :: ([] ++ E)) = some (RE.lit c, E)
    rw [List.nil_append]
    obtain ⟨h1, h2, h3, h4, h5, h6, h7, h8, h9, h10, h11, -, -, -⟩ := not_mem_META_ne c hm
    simp only [parseAtom]
    rw [if_neg h1, if_neg h2, if_neg h3, if_neg h4, if_neg h5, if_neg h6, if_neg h7,
      if_neg (by tauto : ¬(c = '*' ∨ c = '+' ∨ c = '?')), if_neg h11]

theorem escapeChars_cons_eq (c : Char) (cs : List Char) :
    escapeChars (c :: cs) = escapeChars [c] ++ escapeChars cs := by
  rw [escapeChars_cons, escapeChars_cons]
  simp [escapeChars]

theorem parseAtomQ_escape_cons (c : Char) (cs : List Char) (f : Nat) (hf : 2 ≤ f) :
    parseAtomQ f (escapeChars (c :: cs)) = some (RE.lit c, escapeChars cs) := by
  obtain ⟨g, rfl⟩ : ∃ g, f = g + 1 := ⟨f - 1, by omega⟩
  show (do
    let (r, rest) ← parseAtom g (escapeChars (c :: cs))
    parseQuantAux r rest : Option (RE × List Char)) = some (RE.lit c, escapeChars cs)
  rw [escapeChars_cons_eq, parseAtom_escape_cons c _ g (by omega)]
  simpa using parseQuantAux_escape (RE.lit c) cs

theorem escapeChars_head_not_stop (c : Char) (cs : List Char) :
    ∃ c0 t, escapeChars (c :: cs) = c0 :: t ∧ ¬(c0 = '|' ∨ c0 = ')') := by
  rw [escapeChars_cons]
  by_cases h : c ∈ META
  · exact ⟨'\\', _, by rw [if_pos h]; rfl, by decide⟩
  · obtain ⟨-, -, h3, -, -, -, -, -, -, -, -, -, -, h14⟩ := not_mem_META_ne c h
    exact ⟨c, _, by rw [if_neg h]; rfl, by tauto⟩

theorem parseSeq_escape : ∀ (cs : List Char) (f : Nat), cs.length + 2 ≤ f →
    parseSeq f (escapeChars cs) = some (cs.map RE.lit, []) := by
  intro cs
  induction cs with
  | nil =>
    intro f hf
    obtain ⟨g, rfl⟩ : ∃ g, f = g + 1 := ⟨f - 1, by omega⟩
    rfl
  | cons c cs ih =>
    intro f hf
    simp only [List.length_cons] at hf
    obtain ⟨g, rfl⟩ : ∃ g, f = g + 1 := ⟨f - 1, by omega⟩
    have hg2 : 2 ≤ g := by omega
    have hgcs : cs.length + 2 ≤ g := by omega
    obtain ⟨c0, t, he, hstop⟩ := escapeChars_head_not_stop c cs
    rw [he]
    simp only [parseSeq]
    rw [if_neg hstop, ← he]
    simp [parseAtomQ_escape_cons c cs g hg2, ih g hgcs]

theorem parseAlt_escape (cs : List Char) (f : Nat) (hf : cs.length + 3 ≤ f) :
    parseAlt f (escapeChars cs) = some (seqFold (cs.map RE.lit), []) := by
  obtain ⟨g, rfl⟩ : ∃ g, f = g + 1 := ⟨f - 1, by omega⟩
  simp only [parseAlt]
  rw [parseSeq_escape cs g (by omega)]
  rfl

/-- The escaped pattern always parses, to the literal chain of the original
pattern: the `catch` branch of `searchInPackage` cannot itself fail. -/
theorem parseRegex_escape (p : String) :
    parseRegex (escapeRegexMeta p) = some (litChain p.toList) := by
  unfold parseRegex escapeRegexMeta
  rw [toList_mk]
  rw [parseAlt_escape p.toList _ (by have := length_le_escapeChars p.toList; omega)]
  rfl

/-! ### Lemmas about matching a literal chain -/

theorem litChain_nil : litChain [] = RE.eps := rfl

theorem litChain_cons (c : Char) (cs : List Char) :
    litChain (c :: cs) = RE.cat (RE.lit c) (litChain cs) := rfl

theorem sizeRE_litChain (cs : List Char) : sizeRE (litChain cs) = 2 * cs.length + 1 := by
  induction cs with
  | nil => rfl
  | cons c cs ih =>
    rw [litChain_cons]
    show sizeRE (RE.lit c) + sizeRE (litChain cs) + 1 = 2 * (cs.length + 1) + 1
    rw [ih]
    show 1 + (2 * cs.length + 1) + 1 = 2 * (cs.length + 1) + 1
    omega

theorem runRE_lit_nil (g : Nat) (full : List Char) (c : Char) :
    runRE g full (.lit c) [] = [] := by
  cases g <;> rfl

theorem runRE_lit_cons (g : Nat) (full : List Char) (c x : Char) (xs : List Char)
    (hg : 1 ≤ g) :
    runRE g full (.lit c) (x :: xs) = if charCI x = charCI c then [xs] else [] := by
  obtain ⟨h, rfl⟩ : ∃ h, g = h + 1 := ⟨g - 1, by omega⟩
  rfl

theorem runRE_litChain : ∀ (cs full s : List Char) (f : Nat), 2 * cs.length + 1 ≤ f →
    runRE f full (litChain cs) s =
      if ciStarts cs s = true then [s.drop cs.length] else [] := by
  intro cs
  induction cs with
  | nil =>
    intro full s f hf
    obtain ⟨g, rfl⟩ : ∃ g, f = g + 1 := ⟨f - 1, by omega⟩
    simp [litChain_nil, runRE, ciStarts]
  | cons c cs ih =>
    intro full s f hf
    simp only [List.length_cons] at hf
    obtain ⟨g, rfl⟩ : ∃ g, f = g + 1 := ⟨f - 1, by omega⟩
    rw [litChain_cons]
    show (runRE g full (.lit c) s).flatMap (fun t => runRE g full (litChain cs) t) =
      if ciStarts (c :: cs) s = true then [s.drop (c :: cs).length] else []
    cases s with
    | nil =>
      rw [runRE_lit_nil]
      simp [ciStarts]
    | cons x xs =>
      rw [runRE_lit_cons g full c x xs (by omega)]
      by_cases hc : charCI x = charCI c
      · rw [if_pos hc]
        simp only [List.flatMap_cons, List.flatMap_nil, List.append_nil]
        rw [ih full xs g (by omega)]
        show _ = if ciStarts (c :: cs) (x :: xs) = true then [(x :: xs).drop (cs.length + 1)] else []
        simp only [ciStarts, if_pos hc, List.drop_succ_cons]
      · rw [if_neg hc]
        simp only [List.flatMap_nil]
        simp only [ciStarts, if_neg hc]
        rfl

theorem fuelFor_litChain (cs s : List Char) :
    2 * cs.length + 1 ≤ fuelFor (litChain cs) s := by
  unfold fuelFor
  rw [sizeRE_litChain]
  have h1 : 2 * cs.length + 1 + 1 ≤ (2 * cs.length + 1 + 1) * (s.length + 1) :=
    Nat.le_mul_of_pos_right _ (by omega)
  omega

theorem matchEndAt_litChain (cs full s : List Char) :
    matchEndAt full (litChain cs) s =
      if ciStarts cs s = true then some (full.length - (s.drop cs.length).length) else none := by
  unfold matchEndAt
  rw [runRE_litChain cs full s _ (fuelFor_litChain cs s)]
  by_cases h : ciStarts cs s = true <;> simp [h]

theorem firstEnd_litChain (cs full : List Char) :
    ∀ s, (firstEnd full (litChain cs) s).isSome = ciSub cs s := by
  intro s
  induction s with
  | nil =>
    rw [firstEnd, matchEndAt_litChain]
    show _ = ciSub cs []
    by_cases h : ciStarts cs [] = true <;> simp [h, ciSub]
  | cons x t ih =>
    rw [firstEnd, matchEndAt_litChain]
    by_cases h : ciStarts cs (x :: t) = true
    · rw [if_pos h]
      show true = ciSub cs (x :: t)
      simp [ciSub, h]
    · rw [if_neg h]
      show (firstEnd full (litChain cs) t).isSome = ciSub cs (x :: t)
      rw [ih]
      simp [ciSub, h]

theorem gTest_litChain (cs : List Char) (line : String) :
    (gTest (litChain cs) line 0).1 = ciSub cs line.toList := by
  unfold gTest
  rw [if_neg (by omega : ¬ (0 > line.toList.length))]
  have h := firstEnd_litChain cs line.toList (line.toList.drop 0)
  rw [List.drop_zero] at h
  rw [← h]
  cases hfe : firstEnd line.toList (litChain cs) line.toList <;>
    simp only [String.toList] at hfe <;> simp [hfe]

/-- With an invalid pattern, the compiled regex is the literal chain of the
pattern (the fallback branch). -/
theorem compiledRE_invalid {p : String} (h : parseRegex p = none) :
    compiledRE p = litChain p.toList := by
  unfold compiledRE
  rw [h, parseRegex_escape]

/-- With an invalid pattern, the per-line test is exactly case-insensitive
literal-substring containment. -/
theorem lineTest_fallback {p : String} (h : parseRegex p = none) (line : String) :
    lineTest p line = ciSub p.toList line.toList := by
  unfold lineTest
  rw [compiledRE_invalid h, gTest_litChain]

theorem ciStarts_of_exStarts : ∀ pat s, exStarts pat s = true → ciStarts pat s = true
  | [], _, _ => rfl
  | _ :: _, [], h => by simp [exStarts] at h
  | c :: cs, x :: xs, h => by
    simp only [exStarts] at h
    by_cases e : x = c
    · simp only [ciStarts]
      rw [if_pos (by rw [e])]
      exact ciStarts_of_exStarts cs xs (by rwa [if_pos e] at h)
    · rw [if_neg e] at h
      exact absurd h (by simp)

theorem ciSub_of_exSub (pat : List Char) : ∀ s, exSub pat s = true → ciSub pat s = true
  | [], h => by
    simp only [exSub] at h
    simp only [ciSub]
    exact ciStarts_of_exStarts pat [] h
  | x :: t, h => by
    simp only [exSub] at h
    simp only [ciSub]
    by_cases hs : exStarts pat (x :: t) = true
    · rw [ciStarts_of_exStarts pat (x :: t) hs]
      simp
    · rw [if_neg (by simpa using hs)] at h
      have := ciSub_of_exSub pat t h
      split <;> simp [this]

/-! ### Lemmas about the capped, stateful search loops -/

theorem gTest_false_eq (r : RE) (l : String) (li : Nat) (h : (gTest r l li).1 = false) :
    gTest r l li = (false, 0) := by
  unfold gTest at h ⊢
  by_cases hgt : li > l.toList.length
  · rw [if_pos hgt]
  · rw [if_neg hgt] at h ⊢
    simp only [String.toList] at h ⊢
    cases hfe : firstEnd l.data r (List.drop li l.data)
    · rfl
    · rw [hfe] at h
      simp at h

namespace LocalMode

theorem scanLinesG_eq (r : RE) (file : String) :
    ∀ (lines : List String) (i mr : Nat) (acc : List SMatch),
      scanLinesG r file lines i 0 mr acc =
        (acc ++ (lineHits r file lines i).take (mr - acc.length), 0) := by
  intro lines
  induction lines with
  | nil => intro i mr acc; simp [scanLinesG, lineHits]
  | cons l rest ih =>
    intro i mr acc
    by_cases hfull : acc.length ≥ mr
    · simp only [scanLinesG]
      rw [if_pos hfull]
      have h0 : mr - acc.length = 0 := by omega
      simp [h0]
    · simp only [scanLinesG]
      rw [if_neg hfull]
      by_cases ht : (gTest r l 0).1 = true
      · rw [if_pos ht, ih (i + 1) mr _]
        simp only [lineHits, ht, if_true]
        have hk : mr - acc.length = (mr - acc.length - 1) + 1 := by omega
        rw [List.singleton_append, hk, List.take_succ_cons]
        simp only [List.length_append, List.length_cons, List.length_nil]
        have hj : mr - (acc.length + 1) = mr - acc.length - 1 := by omega
        rw [hj, List.append_assoc, List.singleton_append]
      · rw [if_neg ht]
        have h2 : (gTest r l 0).2 = 0 := by
          rw [gTest_false_eq r l 0 (by simpa using ht)]
        rw [h2, ih (i + 1) mr acc]
        simp only [lineHits, ht, if_false]
        simp [Bool.not_eq_true] at ht
        simp [ht]

theorem scanFilesG_eq (r : RE) (es : List FSNode) :
    ∀ (files : List (List String)) (mr : Nat) (acc : List SMatch),
      scanFilesG r es files 0 mr acc =
        (acc ++ (pkgHits r es files).take (mr - acc.length), 0) := by
  intro files
  induction files with
  | nil => intro mr acc; simp [scanFilesG, pkgHits]
  | cons f rest ih =>
    intro mr acc
    by_cases hfull : acc.length ≥ mr
    · simp only [scanFilesG]
      rw [if_pos hfull]
      have h0 : mr - acc.length = 0 := by omega
      simp [h0]
    · simp only [scanFilesG]
      rw [if_neg hfull]
      cases hres : resolveRead es f with
      | none =>
        rw [ih mr acc]
        simp [pkgHits, hres]
      | some content =>
        dsimp only
        rw [scanLinesG_eq r (sepJoin "/" f) (splitLines content) 0 mr acc]
        dsimp only
        rw [ih mr _]
        have hidx :
            mr - (acc ++
              (lineHits r (sepJoin "/" f) (splitLines content) 0).take (mr - acc.length)).length =
            mr - acc.length - (lineHits r (sepJoin "/" f) (splitLines content) 0).length := by
          simp only [List.length_append, List.length_take]
          rcases Nat.le_total (mr - acc.length)
              (lineHits r (sepJoin "/" f) (splitLines content) 0).length with h1 | h1
          · rw [min_eq_left h1]
            omega
          · rw [min_eq_right h1]
            omega
        rw [hidx]
        simp only [pkgHits, List.flatMap_cons, hres]
        rw [List.take_append_eq_append_take, List.append_assoc]

theorem searchInPackage_eq (dir : Option (List FSNode)) (pattern : String) (mr : Nat) :
    searchInPackage dir pattern mr = (pkgHitsAll (compiledRE pattern) dir).take mr := by
  cases dir with
  | none => simp [searchInPackage, pkgHitsAll]
  | some es =>
    simp only [searchInPackage, pkgHitsAll]
    rw [scanFilesG_eq]
    simp

theorem searchLoop_eq (dirOf : String → Option (List FSNode)) (pattern : String) (mr : Nat) :
    ∀ (pkgs : List PackageInfo) (acc : List GMatch),
      searchLoop dirOf pattern mr pkgs acc =
        acc ++ (searchSpec dirOf pattern pkgs).take (mr - acc.length) := by
  intro pkgs
  induction pkgs with
  | nil => intro acc; simp [searchLoop, searchSpec]
  | cons p rest ih =>
    intro acc
    have htag : (searchInPackage (dirOf p.dir) pattern (mr - acc.length)).map
        (fun r => (⟨p.id, r.file, r.line, r.content⟩ : GMatch)) =
        ((pkgHitsAll (compiledRE pattern) (dirOf p.dir)).map
          (fun r => (⟨p.id, r.file, r.line, r.content⟩ : GMatch))).take (mr - acc.length) := by
      rw [searchInPackage_eq, List.map_take]
    have hspec : searchSpec dirOf pattern (p :: rest) =
        (pkgHitsAll (compiledRE pattern) (dirOf p.dir)).map
          (fun r => (⟨p.id, r.file, r.line, r.content⟩ : GMatch)) ++
          searchSpec dirOf pattern rest := by
      simp only [searchSpec, List.flatMap_cons]
    simp only [searchLoop]
    rw [htag, hspec, List.take_append_eq_append_take]
    set S := (pkgHitsAll (compiledRE pattern) (dirOf p.dir)).map
      (fun r => (⟨p.id, r.file, r.line, r.content⟩ : GMatch))
    by_cases h : (acc ++ S.take (mr - acc.length)).length ≥ mr
    · rw [if_pos h]
      have h0 : mr - acc.length - S.length = 0 := by
        simp only [List.length_append, List.length_take] at h
        rcases Nat.le_total (mr - acc.length) S.length with h1 | h1
        · omega
        · rw [min_eq_right h1] at h
          omega
      rw [h0]
      simp
    · rw [if_neg h, ih _]
      have hidx : mr - (acc ++ S.take (mr - acc.length)).length =
          mr - acc.length - S.length := by
        simp only [List.length_append, List.length_take]
        rcases Nat.le_total (mr - acc.length) S.length with h1 | h1
        · rw [min_eq_left h1]
          omega
        · rw [min_eq_right h1]
          omega
      rw [hidx, List.append_assoc]

end LocalMode

/-! ### Lemmas about the file enumeration -/

theorem collectComps_ok :
    ∀ (l : List FSNode) (pre : List String), (∀ c ∈ pre, c ∉ IGNORE) →
      ∀ cs ∈ collectComps pre l,
        (∀ c ∈ cs, c ∉ IGNORE) ∧ cs ≠ [] ∧ extname (cs.getLastD "") ∈ EXTENSIONS
  | [], _, _ => by simp [collectComps]
  | FSNode.file nm co :: rest, pre, hpre => by
    intro cs hcs
    simp only [collectComps, List.mem_append] at hcs
    rcases hcs with hcs | hcs
    · by_cases hig : nm ∈ IGNORE
      · rw [if_pos hig] at hcs
        simp at hcs
      · rw [if_neg hig] at hcs
        by_cases hext : extname nm ∈ EXTENSIONS
        · rw [if_pos hext] at hcs
          simp only [List.mem_singleton] at hcs
          subst hcs
          refine ⟨?_, by simp, ?_⟩
          · intro c hc
            rcases List.mem_append.mp hc with h | h
            · exact hpre c h
            · rw [List.mem_singleton] at h
              subst h
              exact hig
          · rw [List.getLastD_concat]
            exact hext
        · rw [if_neg hext] at hcs
          simp at hcs
    · exact collectComps_ok rest pre hpre cs hcs
  | FSNode.dir nm sub :: rest, pre, hpre => by
    intro cs hcs
    simp only [collectComps, List.mem_append] at hcs
    rcases hcs with hcs | hcs
    · by_cases hig : nm ∈ IGNORE
      · rw [if_pos hig] at hcs
        simp at hcs
      · rw [if_neg hig] at hcs
        refine collectComps_ok sub (pre ++ [nm]) ?_ cs hcs
        intro c hc
        rcases List.mem_append.mp hc with h | h
        · exact hpre c h
        · rw [List.mem_singleton] at h
          subst h
          exact hig
    · exact collectComps_ok rest pre hpre cs hcs

/-! ### Lemmas about the remote file-listing filter -/

theorem toList_append (a b : String) : (a ++ b).toList = a.toList ++ b.toList := by
  cases a
  cases b
  rfl

theorem exSub_cons (pat : List Char) (x : Char) (t : List Char) (h : exSub pat t = true) :
    exSub pat (x :: t) = true := by
  simp only [exSub]
  by_cases hs : exStarts pat (x :: t) = true <;> simp [hs, h]

theorem exSub_append_left (pat : List Char) :
    ∀ (xs t : List Char), exSub pat t = true → exSub pat (xs ++ t) = true
  | [], _, h => h
  | x :: xs, t, h => by
    rw [List.cons_append]
    exact exSub_cons pat x (xs ++ t) (exSub_append_left pat xs t h)

theorem exStarts_self_append : ∀ (p r : List Char), exStarts p (p ++ r) = true
  | [], _ => rfl
  | c :: p, r => by
    rw [List.cons_append]
    simp only [exStarts, if_pos rfl]
    exact exStarts_self_append p r

theorem exSub_self_append (p r : List Char) : exSub p (p ++ r) = true := by
  cases h : p ++ r with
  | nil =>
    have hp : p = [] := (List.append_eq_nil.mp h).1
    rw [hp]
    rfl
  | cons x t =>
    simp only [exSub]
    rw [← h, exStarts_self_append p r]
    simp

theorem sLeads_append (a b : String) : sLeads a (a ++ b) = true := by
  unfold sLeads
  rw [toList_append]
  exact List.isPrefixOf_iff_prefix.mpr (List.prefix_append _ _)

theorem sEnds_iff (suf s : String) :
    sEnds suf s = true ↔ suf.toList.reverse <+: s.toList.reverse := by
  unfold sEnds
  exact List.isPrefixOf_iff_prefix

theorem sEnds_append_left (suf t x : String) (h : sEnds suf t = true) :
    sEnds suf (x ++ t) = true := by
  rw [sEnds_iff] at h ⊢
  rw [toList_append, List.reverse_append]
  exact h.trans (List.prefix_append _ _)

theorem sEnds_self_append (suf x : String) : sEnds suf (x ++ suf) = true := by
  refine sEnds_append_left suf suf x ?_
  rw [sEnds_iff]

/-- If a component of a rendered path equals `ig`, the remote per-pattern
ignore test fires, or the path ends in `/ig`, or the path is `ig` itself
(the latter two are then excluded by the extension test). -/
theorem comps_mem_cases (ig : String) :
    ∀ (comps : List String) (c : String), c ∈ comps → c = ig →
      (sHasSub (sepJoin "/" comps) ("/" ++ ig ++ "/") ||
        sLeads (ig ++ "/") (sepJoin "/" comps)) = true ∨
      sEnds ("/" ++ ig) (sepJoin "/" comps) = true ∨
      sepJoin "/" comps = ig
  | [], c, hc, _ => absurd hc (List.not_mem_nil c)
  | d :: rest, c, hc, hceq => by
    rcases List.mem_cons.mp hc with rfl | htail
    · subst hceq
      cases rest with
      | nil => exact Or.inr (Or.inr rfl)
      | cons d2 r2 =>
        left
        rw [Bool.or_eq_true]
        right
        have hs : sepJoin "/" (c :: d2 :: r2) = (c ++ "/") ++ sepJoin "/" (d2 :: r2) := rfl
        rw [hs]
        exact sLeads_append (c ++ "/") _
    · obtain ⟨d2, r2, rfl⟩ : ∃ d2 r2, rest = d2 :: r2 := by
        cases rest
        · exact absurd htail (List.not_mem_nil c)
        · exact ⟨_, _, rfl⟩
      have hs : sepJoin "/" (d :: d2 :: r2) = (d ++ "/") ++ sepJoin "/" (d2 :: r2) := rfl
      rcases comps_mem_cases ig (d2 :: r2) c htail hceq with h1 | h2 | h3
      · rw [Bool.or_eq_true] at h1
        left
        rw [Bool.or_eq_true]
        left
        rw [hs]
        rcases h1 with hsub | hlead
        · unfold sHasSub at hsub ⊢
          rw [toList_append]
          exact exSub_append_left _ _ _ hsub
        · unfold sHasSub
          unfold sLeads at hlead
          obtain ⟨w, hw⟩ := List.isPrefixOf_iff_prefix.mp hlead
          have hpath : (d ++ "/" ++ sepJoin "/" (d2 :: r2)).toList =
              d.toList ++ (("/" ++ ig ++ "/").toList ++ w) := by
            rw [toList_append, toList_append, ← hw, toList_append, toList_append,
              toList_append]
            simp [List.append_assoc]
          rw [hpath]
          exact exSub_append_left _ _ _ (exSub_self_append _ w)
      · right
        left
        rw [hs]
        exact sEnds_append_left _ _ (d ++ "/") h2
      · right
        left
        rw [hs, h3]
        rw [String.append_assoc]
        exact sEnds_self_append _ d

/-- The remote listing filter: a listed path (given as its rendered
component list) has no `IGNORE_PATTERNS` name as a component and ends in
one of the allowlisted extensions. -/
theorem remoteListFor_components (pkg : RemoteMode.PackageInfo)
    (items : List RemoteMode.TreeItem) (comps : List String)
    (hbp : pkg.basePath = "")
    (hmem : sepJoin "/" comps ∈ RemoteMode.remoteListFor pkg items) :
    (∀ c ∈ comps, c ∉ RemoteMode.IGNORE_PATTERNS) ∧
    ∃ e ∈ EXTENSIONS, sEnds e (sepJoin "/" comps) = true := by
  unfold RemoteMode.remoteListFor at hmem
  rw [hbp] at hmem
  simp only [eq_self_iff_true, if_true, List.map_id', Bool.true_and] at hmem
  have hpred := (List.mem_filter.mp hmem).2
  rw [Bool.and_eq_true, Bool.not_eq_true'] at hpred
  obtain ⟨hig, hext⟩ := hpred
  constructor
  · intro c hc hcig
    rcases comps_mem_cases c comps c hc rfl with h1 | h2 | h3
    · have : RemoteMode.remoteIgnored (sepJoin "/" comps) = true := by
        unfold RemoteMode.remoteIgnored
        exact List.any_eq_true.mpr ⟨c, hcig, h1⟩
      rw [hig] at this
      exact Bool.false_ne_true this
    · unfold RemoteMode.remoteExtOk at hext
      obtain ⟨e, he, hse⟩ := List.any_eq_true.mp hext
      have hlen : e.toList.reverse.length ≤ ("/" ++ c).toList.reverse.length := by
        fin_cases he <;> fin_cases hcig <;> decide
      have hpre := List.prefix_of_prefix_length_le ((sEnds_iff _ _).mp hse)
        ((sEnds_iff _ _).mp h2) hlen
      revert hpre
      fin_cases he <;> fin_cases hcig <;> decide
    · unfold RemoteMode.remoteExtOk at hext
      rw [h3] at hext
      revert hext
      fin_cases hcig <;> decide
  · exact List.any_eq_true.mp hext

/-! ### Claim theorems -/

/-- C1: the path-traversal guard of the local `get_package_source` is the
raw string-prefix test `fullPath.startsWith(pkg.dir)` with no separator
check, so a sibling directory whose name extends the package directory name
(here `form-evil` beside the root `form`) resolves OUTSIDE the root yet
passes the guard, and its file content is served in a success envelope —
the guard only rejects escapes such as the `../../etc/passwd`
example (third conjunct).  This contradicts the stated intent of the source
(`Security: ensure file is within pkg dir`) and the mandatory
path-traversal invariant. -/
theorem C1_traversal_guard_bypass :
    insideRoot "/react-base-core/form"
        (joinPath "/react-base-core/form" "../form-evil/a.ts") = false ∧
    LocalMode.get_package_source
        (fun p => if p = "/react-base-core/form-evil/a.ts" then some "SECRET" else none)
        (fun _ => none) "/react-base-core" "react-form" (some "../form-evil/a.ts") =
      ⟨"// @gaddario98/react-form — ../form-evil/a.ts\n\nSECRET", false⟩ ∧
    LocalMode.get_package_source
        (fun p => if p = "/react-base-core/form-evil/a.ts" then some "SECRET" else none)
        (fun _ => none) "/react-base-core" "react-form" (some "../../etc/passwd") =
      ⟨"Error: path traversal not allowed", true⟩ :=
  ⟨rfl, rfl, rfl⟩

/-- C2 counterexample: the remote `search_source` performs no package-id
validation at all — an unknown `packageId` falls into the all-repositories
scoping branch, and with an API success response carrying no items the
result is the "No results" SUCCESS envelope (`isError = false`), not the
required error envelope enumerating the valid ids. -/
theorem C2_remote_search_unknown_id_counterexample :
    RemoteMode.findPackage "not-a-package" = none ∧
    RemoteMode.search_source (fun _ => Except.ok ⟨0, []⟩) "not-a-package" "x" =
      ⟨"No results found on GitHub for pattern \"x\" in not-a-package", false⟩ :=
  ⟨rfl, rfl⟩

/-- C2 (amended): for every `packageId` matching no registry entry, the
four local operations return `isError=true` with a message enumerating
every valid id exactly once in registry order (the search message appends
a use-all hint), and so do the remote `get_package_docs`,
`get_package_types` and `get_package_source`; the remote `search_source`
is the exception — it does no package-id validation and scopes the query
to every repository (see the counterexample). -/
theorem C2_unknown_package_errors :
    (∀ root : String, (LocalMode.PACKAGES root).map (fun p => p.id) =
        ["react-core", "react-form", "react-queries", "react-pages"] ∧
      ((LocalMode.PACKAGES root).map (fun p => p.id)).Nodup ∧
      RemoteMode.PACKAGES.map (fun p => p.id) =
        ["react-core", "react-form", "react-queries", "react-pages"] ∧
      (∀ pid, LocalMode.notFoundMsg root pid =
        "Package \"" ++ pid ++ "\" not found. Available: " ++
          "react-core, react-form, react-queries, react-pages") ∧
      (∀ pid, RemoteMode.notFoundMsg pid =
        "Package \"" ++ pid ++ "\" not found. Available: " ++
          "react-core, react-form, react-queries, react-pages")) ∧
    (∀ fs root pid, LocalMode.findPackage root pid = none →
      LocalMode.get_package_docs fs root pid = ⟨LocalMode.notFoundMsg root pid, true⟩ ∧
      LocalMode.get_package_types fs root pid = ⟨LocalMode.notFoundMsg root pid, true⟩) ∧
    (∀ fs dirOf root pid fp, LocalMode.findPackage root pid = none →
      LocalMode.get_package_source fs dirOf root pid fp =
        ⟨LocalMode.notFoundMsg root pid, true⟩) ∧
    (∀ dirOf root pid pat mr, LocalMode.findPackage root pid = none → pid ≠ "all" →
      LocalMode.search_source dirOf root pid pat mr =
        ⟨LocalMode.notFoundMsg root pid ++ ", or use \x27all\x27", true⟩) ∧
    (∀ fetch pid, RemoteMode.findPackage pid = none →
      RemoteMode.get_package_docs fetch pid = ⟨RemoteMode.notFoundMsg pid, true⟩ ∧
      RemoteMode.get_package_types fetch pid = ⟨RemoteMode.notFoundMsg pid, true⟩) ∧
    (∀ fetch api pid fp, RemoteMode.findPackage pid = none →
      RemoteMode.get_package_source fetch api pid fp = ⟨RemoteMode.notFoundMsg pid, true⟩) := by
  refine ⟨fun root => ⟨rfl, ?_, rfl, fun pid => rfl, fun pid => rfl⟩, ?_, ?_, ?_, ?_, ?_⟩
  · have h : (LocalMode.PACKAGES root).map (fun p => p.id) =
        ["react-core", "react-form", "react-queries", "react-pages"] := rfl
    rw [h]
    decide
  · intro fs root pid h
    constructor
    · simp only [LocalMode.get_package_docs, h]
    · simp only [LocalMode.get_package_types, h]
  · intro fs dirOf root pid fp h
    simp only [LocalMode.get_package_source, h]
  · intro dirOf root pid pat mr h hall
    simp only [LocalMode.search_source, h, if_neg hall]
    rfl
  · intro fetch pid h
    constructor
    · simp only [RemoteMode.get_package_docs, h]
    · simp only [RemoteMode.get_package_types, h]
  · intro fetch api pid fp h
    simp only [RemoteMode.get_package_source, h]

/-- Witness for the amended C2 theorem at a concrete unknown id. -/
theorem C2_unknown_package_errors_witness :
    LocalMode.get_package_docs (fun _ => none) "/r" "nope" =
      ⟨LocalMode.notFoundMsg "/r" "nope", true⟩ ∧
    LocalMode.search_source (fun _ => none) "/r" "nope" "x" 5 =
      ⟨LocalMode.notFoundMsg "/r" "nope" ++ ", or use \x27all\x27", true⟩ ∧
    RemoteMode.get_package_docs (fun _ _ _ => Except.error "e") "nope" =
      ⟨RemoteMode.notFoundMsg "nope", true⟩ := by
  have h : LocalMode.findPackage "/r" "nope" = none := rfl
  have h2 : RemoteMode.findPackage "nope" = none := rfl
  refine ⟨(C2_unknown_package_errors.2.1 (fun _ => none) "/r" "nope" h).1, ?_, ?_⟩
  · exact C2_unknown_package_errors.2.2.2.1 (fun _ => none) "/r" "nope" "x" 5 h (by decide)
  · exact (C2_unknown_package_errors.2.2.2.2.1 (fun _ _ _ => Except.error "e") "nope" h2).1

/-- C3: over any scope (any package list — one package or the whole
registry), the total number of matches returned by the `search_source`
package loop never exceeds `maxResults`, and with `maxResults = 0` zero
matches are returned.  (By the `C8` equation the loop output is a prefix of
the canonical match list, i.e. scanning effectively stops at the cap.) -/
theorem C3_search_maxResults_cap (dirOf : String → Option (List FSNode)) (pattern : String)
    (mr : Nat) (pkgs : List LocalMode.PackageInfo) :
    (LocalMode.searchLoop dirOf pattern mr pkgs []).length ≤ mr ∧
    (mr = 0 → LocalMode.searchLoop dirOf pattern mr pkgs [] = []) := by
  rw [LocalMode.searchLoop_eq]
  simp only [List.nil_append, List.length_nil, Nat.sub_zero]
  exact ⟨List.length_take_le mr _, fun h => by rw [h]; simp⟩

/-- Witness for C3 at `maxResults = 0` over the full registry. -/
theorem C3_search_maxResults_cap_witness :
    LocalMode.searchLoop (fun _ => none) "useForm" 0 (LocalMode.PACKAGES "/r") [] = [] :=
  (C3_search_maxResults_cap (fun _ => none) "useForm" 0 (LocalMode.PACKAGES "/r")).2 rfl

/-- C4: a pattern the regex dialect rejects is compiled to the literal
chain of its metacharacter-escaped form, so the per-line test is exactly
case-insensitive literal-substring containment; in particular any line
containing the pattern verbatim still tests true, and no `InvalidPattern`
failure exists (the fallback always compiles, `parseRegex_escape`).  The
search engine applies this very test to every line (`lineHits`/`C8`). -/
theorem C4_invalid_pattern_literal_fallback (p : String) (h : parseRegex p = none) :
    compiledRE p = litChain p.toList ∧
    (∀ line, lineTest p line = ciSub p.toList line.toList) ∧
    (∀ line, exSub p.toList line.toList = true → lineTest p line = true) := by
  refine ⟨compiledRE_invalid h, fun line => lineTest_fallback h line, fun line hx => ?_⟩
  rw [lineTest_fallback h line]
  exact ciSub_of_exSub p.toList line.toList hx

/-- Witness for C4 at the example pattern of the spec, which is `a(`. -/
theorem C4_invalid_pattern_literal_fallback_witness :
    parseRegex "a(" = none ∧ lineTest "a(" "call a(1);" = true := by
  have h : parseRegex "a(" = none := rfl
  exact ⟨h, (C4_invalid_pattern_literal_fallback "a(" h).2.2 "call a(1);" (by decide)⟩

/-- C5: `get_package_types` on `react-core` (the package with no
`typesPath`) aggregates, in registry order, one banner per other package
that has a `typesPath` — in the remote variant the banner is the fetched
content or the explicit "Not Available" marker, in the local variant the
content or the explicit file-not-found marker text — and the aggregate is
a success envelope (`isError = false`) for every outcome of the
sub-fetches. -/
theorem C5_types_aggregation_never_errors
    (fetch : String → String → String → Except String String)
    (fs : String → Option String) (root : String) :
    RemoteMode.get_package_types fetch "react-core" =
      ⟨"// @gaddario98/react-core aggregated types\n// The core package re-exports from sub-modules:\n\n"
        ++ sepJoin "\n\n"
          [RemoteMode.typesBannerR fetch "@gaddario98/react-form"
            "gaddario98/react-base-form" "types.ts",
           RemoteMode.typesBannerR fetch "@gaddario98/react-queries"
            "gaddario98/react-base-queries" "types.ts",
           RemoteMode.typesBannerR fetch "@gaddario98/react-pages"
            "gaddario98/react-base-pages" "types.ts"], false⟩ ∧
    LocalMode.get_package_types fs root "react-core" =
      ⟨"// @gaddario98/react-core aggregated types\n// The core package re-exports from sub-modules:\n\n"
        ++ sepJoin "\n\n"
          [LocalMode.typesBannerL fs root "@gaddario98/react-form" (root ++ "/form/types.ts"),
           LocalMode.typesBannerL fs root "@gaddario98/react-queries" (root ++ "/queries/types.ts"),
           LocalMode.typesBannerL fs root "@gaddario98/react-pages" (root ++ "/pages/types.ts")],
        false⟩ := by
  constructor
  · rfl
  · rcases h1 : fs (root ++ "/form/types.ts") with - | c1 <;>
      rcases h2 : fs (root ++ "/queries/types.ts") with - | c2 <;>
        rcases h3 : fs (root ++ "/pages/types.ts") with - | c3 <;>
          simp [LocalMode.get_package_types, LocalMode.findPackage, LocalMode.PACKAGES,
            LocalMode.typesBannerL, LocalMode.readFileSafe, h1, h2, h3]

/-- C6 counterexample: in the local variant a readable-package-id request
whose README read fails yields a SUCCESS envelope whose text is the
`readFileSafe` error-marker string — not the `isError=true` envelope the
claim requires for an unreadable README. -/
theorem C6_local_unreadable_readme_counterexample :
    (∀ p : String, (fun _ => (none : Option String)) p = none) ∧
    LocalMode.get_package_docs (fun _ => none) "/r" "react-form" =
      ⟨"Error: file not found at /r/form/README.md", false⟩ :=
  ⟨fun _ => rfl, rfl⟩

/-- C6 (amended): `get_package_docs` returns the README verbatim in a
success envelope for a known package whose README is readable, and an
error envelope for an unknown id (both variants) or a failed remote fetch;
in the LOCAL variant an unreadable README instead yields a SUCCESS
envelope whose text is the literal `Error: file not found at <path>`
marker produced by `readFileSafe`. -/
theorem C6_docs_verbatim_and_errors :
    (∀ fs root pid pkg txt, LocalMode.findPackage root pid = some pkg →
      fs pkg.readmePath = some txt →
      LocalMode.get_package_docs fs root pid = ⟨txt, false⟩) ∧
    (∀ fs root pid, LocalMode.findPackage root pid = none →
      LocalMode.get_package_docs fs root pid = ⟨LocalMode.notFoundMsg root pid, true⟩) ∧
    (∀ fetch pid pkg txt, RemoteMode.findPackage pid = some pkg →
      fetch pkg.repo pkg.branch pkg.readmePath = Except.ok txt →
      RemoteMode.get_package_docs fetch pid = ⟨txt, false⟩) ∧
    (∀ fetch pid pkg m, RemoteMode.findPackage pid = some pkg →
      fetch pkg.repo pkg.branch pkg.readmePath = Except.error m →
      RemoteMode.get_package_docs fetch pid = ⟨"Error fetching documentation: " ++ m, true⟩) ∧
    (∀ fs root pid pkg, LocalMode.findPackage root pid = some pkg →
      fs pkg.readmePath = none →
      LocalMode.get_package_docs fs root pid =
        ⟨"Error: file not found at " ++ pkg.readmePath, false⟩) := by
  refine ⟨?_, ?_, ?_, ?_, ?_⟩
  · intro fs root pid pkg txt h1 h2
    simp [LocalMode.get_package_docs, LocalMode.readFileSafe, h1, h2]
  · intro fs root pid h
    simp [LocalMode.get_package_docs, h]
  · intro fetch pid pkg txt h1 h2
    simp [RemoteMode.get_package_docs, h1, h2]
  · intro fetch pid pkg m h1 h2
    simp [RemoteMode.get_package_docs, h1, h2]
  · intro fs root pid pkg h1 h2
    simp [LocalMode.get_package_docs, LocalMode.readFileSafe, h1, h2]

/-- Witness for the amended C6 theorem: a readable README is returned
verbatim. -/
theorem C6_docs_verbatim_and_errors_witness :
    LocalMode.get_package_docs
        (fun p => if p = "/r/form/README.md" then some "README TEXT" else none)
        "/r" "react-form" = ⟨"README TEXT", false⟩ :=
  C6_docs_verbatim_and_errors.1
    (fun p => if p = "/r/form/README.md" then some "README TEXT" else none) "/r" "react-form"
    ⟨"react-form", "@gaddario98/react-form",
      "Dynamic, type-safe form builder on TanStack React Form with Jotai state",
      "/r/form", "/r/form/README.md", some "/r/form/types.ts",
      "https://github.com/gaddario98/react-form"⟩ "README TEXT" rfl rfl

/-- C7: in both variants the source-file listing is extension- and
ignore-clean.  Locally, every enumerated path consists of components none
of which is an `IGNORE` name (`node_modules`, `dist`, `.git`, `.github`,
`.claude`) and its final component has an allowlisted extension
(`collectSourceFiles` renders exactly those component lists with `/`
separators).  Remotely, every path kept by the GitHub-tree filter (for the
registry, whose packages all have `basePath = ""`) has no
`IGNORE_PATTERNS` name as a component and ends in one of `.ts`, `.tsx`,
`.js`, `.jsx`. -/
theorem C7_source_listing_allowlist :
    (∀ es : List FSNode,
      collectSourceFiles (some es) = (collectComps [] es).map (sepJoin "/") ∧
      ∀ cs ∈ collectComps [] es,
        (∀ c ∈ cs, c ∉ IGNORE) ∧ cs ≠ [] ∧ extname (cs.getLastD "") ∈ EXTENSIONS) ∧
    (∀ (pkg : RemoteMode.PackageInfo) (items : List RemoteMode.TreeItem)
      (comps : List String), pkg.basePath = "" →
      sepJoin "/" comps ∈ RemoteMode.remoteListFor pkg items →
      (∀ c ∈ comps, c ∉ RemoteMode.IGNORE_PATTERNS) ∧
      ∃ e ∈ EXTENSIONS, sEnds e (sepJoin "/" comps) = true) := by
  constructor
  · exact fun es => ⟨rfl, fun cs hcs => collectComps_ok es [] (by simp) cs hcs⟩
  · exact fun pkg items comps hbp hmem => remoteListFor_components pkg items comps hbp hmem

/-- Witness for C7 on a small tree with an ignored directory and a
non-source file. -/
theorem C7_source_listing_allowlist_witness :
    collectSourceFiles (some [FSNode.dir "src" [FSNode.file "a.ts" (some "")],
        FSNode.dir "node_modules" [FSNode.file "b.ts" (some "")],
        FSNode.file "c.md" (some "")]) = ["src/a.ts"] ∧
    ((∀ c ∈ ["src", "a.ts"], c ∉ IGNORE) ∧ (["src", "a.ts"] : List String) ≠ [] ∧
      extname (["src", "a.ts"].getLastD "") ∈ EXTENSIONS) ∧
    ((∀ c ∈ ["hooks", "useF.tsx"], c ∉ RemoteMode.IGNORE_PATTERNS) ∧
      ∃ e ∈ EXTENSIONS, sEnds e (sepJoin "/" ["hooks", "useF.tsx"]) = true) := by
  have hev : collectComps [] [FSNode.dir "src" [FSNode.file "a.ts" (some "")],
      FSNode.dir "node_modules" [FSNode.file "b.ts" (some "")],
      FSNode.file "c.md" (some "")] = [["src", "a.ts"]] := by
    simp [collectComps, IGNORE, EXTENSIONS, extname]
  refine ⟨?_, ?_, ?_⟩
  · rw [(C7_source_listing_allowlist.1 _).1, hev]
    rfl
  · exact (C7_source_listing_allowlist.1 [FSNode.dir "src" [FSNode.file "a.ts" (some "")],
      FSNode.dir "node_modules" [FSNode.file "b.ts" (some "")],
      FSNode.file "c.md" (some "")]).2 ["src", "a.ts"] (by rw [hev]; simp)
  · refine C7_source_listing_allowlist.2
      ⟨"react-form", "@gaddario98/react-form",
        "Dynamic, type-safe form builder on TanStack React Form with Jotai state",
        "gaddario98/react-base-form", "master", "", "README.md", some "types.ts",
        "https://github.com/gaddario98/react-base-form"⟩
      [⟨"blob", "hooks/useF.tsx"⟩, ⟨"blob", "node_modules/x.ts"⟩, ⟨"tree", "hooks"⟩,
        ⟨"blob", "README.md"⟩]
      ["hooks", "useF.tsx"] rfl (by decide)

/-- C8: the capped search output is exactly the `maxResults`-prefix of the
canonical match list `searchSpec` — built package by package in iteration
order, file by file in enumeration order, line by line ascending, with one
`SMatch` per matching line carrying the 1-based line number (`i + 1` in
`lineHits`) and the trimmed line text. -/
theorem C8_search_match_shape_and_order (dirOf : String → Option (List FSNode))
    (pattern : String) (mr : Nat) (pkgs : List LocalMode.PackageInfo) :
    LocalMode.searchLoop dirOf pattern mr pkgs [] =
      (LocalMode.searchSpec dirOf pattern pkgs).take mr := by
  rw [LocalMode.searchLoop_eq]
  simp

/-- C9: a missing package directory makes `collectSourceFiles` return the
empty sequence, and the no-`filePath` `get_package_source` a success
envelope with an empty listing. -/
theorem C9_missing_directory_empty_listing (fs : String → Option String)
    (dirOf : String → Option (List FSNode)) (root pid : String)
    (pkg : LocalMode.PackageInfo) (h1 : LocalMode.findPackage root pid = some pkg)
    (h2 : dirOf pkg.dir = none) :
    collectSourceFiles (dirOf pkg.dir) = [] ∧
    LocalMode.get_package_source fs dirOf root pid none =
      ⟨"# Source files in " ++ pkg.name ++ "\n\n" ++ "" ++
        "\n\n---\nUse `get_package_source` with a `filePath` to read a specific file.",
        false⟩ := by
  constructor
  · rw [h2]
    rfl
  · simp [LocalMode.get_package_source, h1, h2, collectSourceFiles, sepJoin]

/-- Witness for C9 with the whole filesystem absent. -/
theorem C9_missing_directory_empty_listing_witness :
    collectSourceFiles ((fun _ => (none : Option (List FSNode))) "/r/pages") = [] ∧
    LocalMode.get_package_source (fun _ => none) (fun _ => none) "/r" "react-pages" none =
      ⟨"# Source files in " ++ "@gaddario98/react-pages" ++ "\n\n" ++ "" ++
        "\n\n---\nUse `get_package_source` with a `filePath` to read a specific file.",
        false⟩ :=
  C9_missing_directory_empty_listing (fun _ => none) (fun _ => none) "/r" "react-pages"
    ⟨"react-pages", "@gaddario98/react-pages",
      "Page orchestrator: forms + queries + SEO + lazy loading + cross-platform",
      "/r/pages", "/r/pages/README.md", some "/r/pages/types.ts",
      "https://github.com/gaddario98/react-pages"⟩ rfl rfl

/-- C10: the per-package search that faithfully threads the `lastIndex` of the `g`-flag
regex (with the reset-to-0 of the source after every matching
line, and the JS reset on a failed test) computes the same result list as
the stateless reference search in which every line is tested with a fresh
`lastIndex = 0` — so a match on one line never suppresses or shifts a
match on a later line, and any two runs on fixed inputs are identical. -/
theorem C10_search_stateless_deterministic (dir : Option (List FSNode)) (pattern : String)
    (mr : Nat) :
    LocalMode.searchInPackage dir pattern mr = LocalMode.searchInPackagePure dir pattern mr := by
  rw [LocalMode.searchInPackage_eq]
  rfl

end McpDocs
